import Mathlib

/-!
# Verification of the xpath-parser extraction engine

A shallow embedding in Lean 4 of the extraction-and-transformation core of
the `nestjs-xpath-parser` repository: the node facade (`HtmlBuilder`), the
selector resolver (`findByPattern`), the record assembler
(`extractData` / `extractFromContainers` / `extractWithoutContainer`), the
value pipeline (`applyPipes` / `extractMultipleValues`) and selector
validation (`validateXpath`).

Modelling conventions:
* JavaScript strings are modelled as `List Char` (abbreviation `JStr`).
* The two tree-query engines (libxmljs and jsdom) are external native
  libraries; their query behaviour is modelled by an oracle record
  (`DomOracle`) whose `findXpath` operations may either return a node list
  or raise (`Except`), exactly the observable surface the service code uses.
* The external `decode-html` library is modelled as an opaque
  `JStr → JStr` function parameter.
* JavaScript regular-expression replacement (`String.replace(new
  RegExp(from, 'g'), to)`) is modelled as global literal substring
  replacement; no claim depends on regex metacharacter semantics.
* The `\s` character class is modelled by the four common whitespace
  characters (space, tab, newline, carriage return).
-/

namespace ScraperHtml

/-- JavaScript strings, modelled as lists of characters. -/
abbrev JStr := List Char

/-- Model of the JS `\s` character class (common whitespace characters). -/
def isWs (c : Char) : Bool :=
  c = ' ' || c = '\t' || c = '\n' || c = '\r'

/-- Auxiliary for `collapseWs`: the Boolean records whether the previous
output position ended inside a whitespace run (so further whitespace is
swallowed). -/
def collapseAux : Bool → List Char → List Char
  | _, [] => []
  | prevWs, c :: cs =>
    if isWs c then
      if prevWs then collapseAux true cs
      else ' ' :: collapseAux true cs
    else c :: collapseAux false cs

/-- Model of `s.replace(/\s+/g, ' ')`: every maximal whitespace run is
replaced by a single space. -/
def collapseWs (s : JStr) : JStr := collapseAux false s

/-- Remove trailing whitespace (structural model of the right half of JS
`String.prototype.trim`). -/
def trimRightAux : List Char → List Char
  | [] => []
  | c :: cs =>
    match trimRightAux cs with
    | [] => if isWs c then [] else [c]
    | r => c :: r

/-- Model of JS `String.prototype.trim`: strip leading and trailing
whitespace. -/
def jsTrim (s : JStr) : JStr := trimRightAux (s.dropWhile isWs)

/-- The final normalization step of `applyPipes`
(`result.replace(/\s+/g, ' ').trim()`, scraper-html.service.ts line 455). -/
def wsNormalize (s : JStr) : JStr := jsTrim (collapseWs s)

/-- `HtmlBuilder.normalizeWhitespace` (html-builder.ts lines 135-137):
`text.trim().replace(/\s+/g, ' ')` — trim first, collapse second. -/
def normalizeWhitespace (text : JStr) : JStr := collapseWs (jsTrim text)

/-- The first character (if any) is not whitespace. -/
def leadWsFree : List Char → Bool
  | [] => true
  | c :: _ => !isWs c

/-- The last character (if any) is not whitespace. -/
def trailWsFree : List Char → Bool
  | [] => true
  | [c] => !isWs c
  | _ :: c :: cs => trailWsFree (c :: cs)

/-- No two consecutive characters are both whitespace. -/
def noRunB : List Char → Bool
  | [] => true
  | [_] => true
  | a :: b :: cs => !(isWs a && isWs b) && noRunB (b :: cs)

/-- A string is whitespace-normalized: no leading or trailing whitespace
and no run of two or more consecutive whitespace characters. -/
def wsNormalizedB (s : JStr) : Bool :=
  leadWsFree s && trailWsFree s && noRunB s

/-! ### Lemmas about the whitespace operations -/

theorem noRunB_tail {a : Char} {t : List Char} (h : noRunB (a :: t) = true) :
    noRunB t = true := by
  cases t with
  | nil => rfl
  | cons b r =>
    simp only [noRunB, Bool.and_eq_true] at h
    exact h.2

theorem leadWsFree_dropWhile (l : List Char) :
    leadWsFree (l.dropWhile isWs) = true := by
  induction l with
  | nil => rfl
  | cons c cs ih =>
    by_cases h : isWs c = true
    · simp [List.dropWhile, h, ih]
    · simp only [Bool.not_eq_true] at h
      simp [List.dropWhile, h, leadWsFree]

theorem noRunB_dropWhile {l : List Char} (h : noRunB l = true) :
    noRunB (l.dropWhile isWs) = true := by
  induction l with
  | nil => exact h
  | cons c cs ih =>
    by_cases hc : isWs c = true
    · simp only [List.dropWhile, hc, if_true]
      exact ih (noRunB_tail h)
    · simp only [Bool.not_eq_true] at hc
      simpa [List.dropWhile, hc] using h

/-- `trimRightAux` preserves the head of the list when its output is
nonempty. -/
theorem trimRightAux_head {l : List Char} {c : Char} {r : List Char}
    (h : trimRightAux l = c :: r) : ∃ t, l = c :: t := by
  cases l with
  | nil => simp [trimRightAux] at h
  | cons a t =>
    refine ⟨t, ?_⟩
    simp only [trimRightAux] at h
    cases htr : trimRightAux t with
    | nil =>
      rw [htr] at h
      by_cases ha : isWs a = true
      · simp [ha] at h
      · simp only [Bool.not_eq_true] at ha
        simp [ha] at h
        simp [h.1]
    | cons x xs =>
      rw [htr] at h
      cases h
      rfl

theorem trailWsFree_trimRightAux (l : List Char) :
    trailWsFree (trimRightAux l) = true := by
  induction l with
  | nil => rfl
  | cons c cs ih =>
    simp only [trimRightAux]
    cases htr : trimRightAux cs with
    | nil =>
      by_cases hc : isWs c = true
      · simp [hc, trailWsFree]
      · simp only [Bool.not_eq_true] at hc
        simp [hc, trailWsFree]
    | cons x xs =>
      rw [htr] at ih
      simpa [trailWsFree] using ih

theorem noRunB_trimRightAux {l : List Char} (h : noRunB l = true) :
    noRunB (trimRightAux l) = true := by
  induction l with
  | nil => rfl
  | cons c cs ih =>
    simp only [trimRightAux]
    cases htr : trimRightAux cs with
    | nil =>
      by_cases hc : isWs c = true
      · simp [hc, noRunB]
      · simp [hc, noRunB]
    | cons x xs =>
      have hcs := ih (noRunB_tail h)
      rw [htr] at hcs
      obtain ⟨t, ht⟩ := trimRightAux_head htr
      subst ht
      simp only [noRunB, Bool.and_eq_true] at h ⊢
      exact ⟨h.1, hcs⟩

theorem leadWsFree_trimRightAux {l : List Char} (h : leadWsFree l = true) :
    leadWsFree (trimRightAux l) = true := by
  cases htr : trimRightAux l with
  | nil => rfl
  | cons c r =>
    obtain ⟨t, ht⟩ := trimRightAux_head htr
    subst ht
    simpa [leadWsFree] using h

/-- The output of the `applyPipes` final normalization step is
whitespace-normalized, given that its input to `trimRightAux` has no runs
(which `collapseWs` guarantees below). -/
theorem noRunB_collapseAux (b : Bool) (l : List Char) :
    noRunB (collapseAux b l) = true ∧
      (b = true → leadWsFree (collapseAux b l) = true) := by
  induction l generalizing b with
  | nil => exact ⟨rfl, fun _ => rfl⟩
  | cons c cs ih =>
    by_cases hc : isWs c = true
    · cases b with
      | true =>
        simp only [collapseAux, hc, if_true]
        exact ⟨(ih true).1, fun _ => (ih true).2 rfl⟩
      | false =>
        simp only [collapseAux, hc, if_true]
        refine ⟨?_, fun hb => by cases hb⟩
        have h1 := (ih true).1
        have h2 := (ih true).2 rfl
        cases hcol : collapseAux true cs with
        | nil => rfl
        | cons x xs =>
          rw [hcol] at h1 h2
          simp only [noRunB, Bool.and_eq_true]
          refine ⟨?_, h1⟩
          simp only [leadWsFree, Bool.not_eq_true'] at h2
          simp [h2]
    · simp only [Bool.not_eq_true] at hc
      simp only [collapseAux, hc, Bool.false_eq_true, if_false]
      constructor
      · have h1 := (ih false).1
        cases hcol : collapseAux false cs with
        | nil => simp [noRunB]
        | cons x xs =>
          rw [hcol] at h1
          simp only [noRunB, Bool.and_eq_true]
          refine ⟨?_, h1⟩
          simp [hc]
      · intro _
        simp [leadWsFree, hc]

theorem noRunB_collapseWs (l : List Char) : noRunB (collapseWs l) = true :=
  (noRunB_collapseAux false l).1

/-- Main whitespace lemma: `wsNormalize` output is whitespace-normalized. -/
theorem wsNormalizedB_wsNormalize (s : JStr) :
    wsNormalizedB (wsNormalize s) = true := by
  have hnr : noRunB ((collapseWs s).dropWhile isWs) = true :=
    noRunB_dropWhile (noRunB_collapseWs s)
  have hlead : leadWsFree ((collapseWs s).dropWhile isWs) = true :=
    leadWsFree_dropWhile (collapseWs s)
  simp only [wsNormalizedB, wsNormalize, jsTrim, Bool.and_eq_true]
  exact ⟨⟨leadWsFree_trimRightAux hlead, trailWsFree_trimRightAux _⟩,
    noRunB_trimRightAux hnr⟩

theorem leadWsFree_collapseWs {l : List Char} (h : leadWsFree l = true) :
    leadWsFree (collapseWs l) = true := by
  cases l with
  | nil => rfl
  | cons c cs =>
    simp only [leadWsFree, Bool.not_eq_true'] at h
    simp [collapseWs, collapseAux, h, leadWsFree]

theorem collapseAux_ne_nil {l : List Char} (b : Bool) (hne : l ≠ [])
    (h : trailWsFree l = true) : collapseAux b l ≠ [] := by
  induction l generalizing b with
  | nil => exact absurd rfl hne
  | cons c cs ih =>
    cases cs with
    | nil =>
      simp only [trailWsFree, Bool.not_eq_true'] at h
      simp [collapseAux, h]
    | cons d ds =>
      have htail : trailWsFree (d :: ds) = true := by
        simpa [trailWsFree] using h
      by_cases hc : isWs c = true
      · cases b with
        | true =>
          simp only [collapseAux, hc, if_true]
          exact ih true (by simp) htail
        | false => simp [collapseAux, hc]
      · simp only [Bool.not_eq_true] at hc
        simp [collapseAux, hc]

theorem trailWsFree_collapseAux {l : List Char} (b : Bool)
    (h : trailWsFree l = true) : trailWsFree (collapseAux b l) = true := by
  induction l generalizing b with
  | nil => rfl
  | cons c cs ih =>
    cases cs with
    | nil =>
      simp only [trailWsFree, Bool.not_eq_true'] at h
      simp [collapseAux, h, trailWsFree]
    | cons d ds =>
      have htail : trailWsFree (d :: ds) = true := by
        simpa [trailWsFree] using h
      have hne : collapseAux true (d :: ds) ≠ [] :=
        collapseAux_ne_nil true (by simp) htail
      have hne' : collapseAux false (d :: ds) ≠ [] :=
        collapseAux_ne_nil false (by simp) htail
      by_cases hc : isWs c = true
      · cases b with
        | true =>
          simp only [collapseAux, hc, if_true]
          exact ih true htail
        | false =>
          have step : collapseAux false (c :: d :: ds) =
              ' ' :: collapseAux true (d :: ds) := by
            simp [collapseAux, hc]
          rw [step]
          cases hcol : collapseAux true (d :: ds) with
          | nil => exact absurd hcol hne
          | cons x xs =>
            have := ih true htail
            rw [hcol] at this
            simpa [trailWsFree] using this
      · simp only [Bool.not_eq_true] at hc
        have step : collapseAux b (c :: d :: ds) =
            c :: collapseAux false (d :: ds) := by
          simp [collapseAux, hc]
        rw [step]
        cases hcol : collapseAux false (d :: ds) with
        | nil => exact absurd hcol hne'
        | cons x xs =>
          have := ih false htail
          rw [hcol] at this
          simpa [trailWsFree] using this

/-- The output of `HtmlBuilder.normalizeWhitespace` (trim then collapse) is
also whitespace-normalized. -/
theorem wsNormalizedB_normalizeWhitespace (t : JStr) :
    wsNormalizedB (normalizeWhitespace t) = true := by
  have hlead : leadWsFree (jsTrim t) = true :=
    leadWsFree_trimRightAux (leadWsFree_dropWhile t)
  have htrail : trailWsFree (jsTrim t) = true := trailWsFree_trimRightAux _
  simp only [wsNormalizedB, normalizeWhitespace, Bool.and_eq_true]
  exact ⟨⟨leadWsFree_collapseWs hlead, trailWsFree_collapseAux false htrail⟩,
    noRunB_collapseWs _⟩

/-! ## Node facade (`HtmlBuilder`, src/utils/html-builder.ts)

The two engines parse with external native libraries, so a parsed node is
modelled by the data the facade's value accessors actually read from it:
under jsdom an element's `textContent` (possibly `null`), under libxmljs
either an attribute (which has a `value()` method), an element/text node
(which has a `text()` method), or any other node (read via `toString()`).
-/

/-- The engine selected for an `HtmlBuilder` (src/enums). -/
inductive EngineHtmlBuilder where
  | jsdom
  | libxmljs
deriving DecidableEq, Repr

/-- A node as seen through the jsdom engine: `getValueXML` only reads its
`textContent` property, which may be `null`. -/
inductive JsdomNode where
  | element (textContent : Option JStr)
deriving DecidableEq, Repr

/-- A node as seen through the libxmljs engine: `getValueXML` dispatches on
which accessor the node object exposes. -/
inductive LibxmlNode where
  /-- An attribute node: has a `value()` method. -/
  | attribute (attrValue : JStr)
  /-- An element or text node: has a `text()` method. -/
  | textNode (text : JStr)
  /-- Any other node: read through `toString()`. -/
  | otherNode (stringRep : JStr)
deriving DecidableEq, Repr

/-- `HtmlBuilder.getValueXML` under the jsdom engine
(html-builder.ts lines 115-117): `(node as Element).textContent?.trim() || ''`.
`none` models a `null` node argument (the line-113 guard). -/
def getValueJsdom : Option JsdomNode → JStr
  | none => []
  | some (.element none) => []
  | some (.element (some tc)) => jsTrim tc

/-- `HtmlBuilder.getValueXML` under the libxmljs engine
(html-builder.ts lines 119-132). -/
def getValueLibxml : Option LibxmlNode → JStr
  | none => []
  | some (.attribute v) => jsTrim v
  | some (.textNode t) => normalizeWhitespace t
  | some (.otherNode s) => normalizeWhitespace s

/-! ## Value pipeline primitives (`applyPipes`, scraper-html.service.ts 396-458) -/

/-- ASCII model of the character-level action of JS
`String.prototype.toLowerCase`. -/
def jsLowerChar (c : Char) : Char :=
  if 65 ≤ c.toNat ∧ c.toNat ≤ 90 then Char.ofNat (c.toNat + 32) else c

/-- ASCII model of the character-level action of JS
`String.prototype.toUpperCase`. -/
def jsUpperChar (c : Char) : Char :=
  if 97 ≤ c.toNat ∧ c.toNat ≤ 122 then Char.ofNat (c.toNat - 32) else c

/-- Model of `result.toLowerCase()`. -/
def jsToLower (s : JStr) : JStr := s.map jsLowerChar

/-- Model of `result.toUpperCase()`. -/
def jsToUpper (s : JStr) : JStr := s.map jsUpperChar

/-- Structural worker for `jsReplaceAll`: the fuel argument (always the
input length at the top call, and consumed strictly slower than the
input) keeps the recursion structural so that closed instances evaluate
definitionally. -/
def jsReplaceAllAux (pat repl : JStr) : Nat → JStr → JStr
  | 0, s => s
  | _ + 1, [] => []
  | fuel + 1, c :: cs =>
    if pat ≠ [] ∧ pat.isPrefixOf (c :: cs) = true then
      repl ++ jsReplaceAllAux pat repl fuel ((c :: cs).drop pat.length)
    else
      c :: jsReplaceAllAux pat repl fuel cs

/-- Model of `result.replace(new RegExp(replacement.from, 'g'),
replacement.to)` as global literal substring replacement (no claim depends
on regex metacharacter semantics; an empty pattern is left as a no-op). -/
def jsReplaceAll (pat repl s : JStr) : JStr :=
  jsReplaceAllAux pat repl s.length s

/-- Model of `Array.prototype.join(sep)` for an array of strings. -/
def joinSep (sep : JStr) (vs : List JStr) : JStr := List.intercalate sep vs

/-- A JavaScript value as returned by a custom pipe's `exec`: either a
string, or any other value together with its `String(·)` image. -/
inductive JsValue where
  | str (s : JStr)
  | nonStr (stringified : JStr)
deriving DecidableEq, Repr

/-- The `String(transformed)` coercion (scraper-html.service.ts 441-444):
a string stays itself, any other value becomes its string image. -/
def jsStringOf : JsValue → JStr
  | .str s => s
  | .nonStr r => r

/-- Outcome of calling a custom pipe's `exec`: a value, or a thrown
exception. -/
inductive ExecResult where
  | ok (v : JsValue)
  | threw
deriving Repr

/-- A custom pipe *instance*, i.e. the output of `instantiatePipes`
(types/… in part_009): only its `exec` member is used by `applyPipes`;
`none` models an instance whose `exec` is not a function (the
`typeof customPipe.exec === 'function'` guard). The config-to-instance
step (registry lookup, silently dropping unknown types) happens before
this representation. -/
structure PipeInstance where
  exec : Option (JStr → ExecResult)

/-- The custom-pipe loop of `applyPipes` (scraper-html.service.ts
436-451): each pipe with a callable `exec` is run on the current value;
a string result replaces the value, a non-string result is coerced with
`String(·)`, and a thrown exception is caught and logged, leaving the
value unchanged. -/
def runCustomChain (value : JStr) : List PipeInstance → JStr
  | [] => value
  | p :: ps =>
    match p.exec with
    | none => runCustomChain value ps
    | some f =>
      match f value with
      | .ok v => runCustomChain (jsStringOf v) ps
      | .threw => runCustomChain value ps

/-- `merge` option of `CleanerStepRules` (pattern-field.type.ts): the
truthy values `true`, `'with space'` and `'with comma'`; `none` in the
surrounding `Option` models absent/`false` (falsy). -/
inductive MergeMode where
  | asTrue
  | withSpace
  | withComma
deriving DecidableEq, Repr

/-- One entry of the `replace` rule list (`CleanerRule`,
pattern-field.type.ts): `fromPat` models `from`, `toRepl` models `to`. -/
structure CleanerRule where
  fromPat : JStr
  toRepl : JStr
deriving DecidableEq, Repr

/-- `CleanerStepRules` (pattern-field.type.ts), with the custom-pipe
config list modelled post-instantiation (see `PipeInstance`). -/
structure CleanerStepRules where
  trim : Bool := false
  toLowerCase : Bool := false
  toUpperCase : Bool := false
  replace : Option (List CleanerRule) := none
  decode : Bool := false
  merge : Option MergeMode := none
  custom : Option (List PipeInstance) := none

/-- The built-in stages of `applyPipes` that run before the custom-pipe
loop (scraper-html.service.ts 405-430): decode, lowercase, uppercase,
trim, then each replace rule in list order. -/
def preCustomPipes (decodeHtml : JStr → JStr) (value : JStr)
    (p : CleanerStepRules) : JStr :=
  let r1 := if p.decode then decodeHtml value else value
  let r2 := if p.toLowerCase then jsToLower r1 else r1
  let r3 := if p.toUpperCase then jsToUpper r2 else r2
  let r4 := if p.trim then jsTrim r3 else r3
  match p.replace with
  | some rules =>
    rules.foldl (fun r rule => jsReplaceAll rule.fromPat rule.toRepl r) r4
  | none => r4

/-- `ScraperHtmlService.applyPipes` (scraper-html.service.ts 396-458).
The external `decode-html` library is the `decodeHtml` parameter; the
`url` parameter of the source only feeds pipe instantiation, which is
modelled away (see `PipeInstance`). -/
def applyPipes (decodeHtml : JStr → JStr) (value : JStr)
    (pipes : Option CleanerStepRules) : JStr :=
  match pipes with
  | none => value
  | some p =>
    if value = [] then value
    else
      let r5 := preCustomPipes decodeHtml value p
      let r6 :=
        match p.custom with
        | some cps => if cps.length > 0 then runCustomChain r5 cps else r5
        | none => r5
      wsNormalize r6

/-! ## Field descriptors and the extraction service -/

/-- `returnType` of a `PatternField` (pattern-field.type.ts). -/
inductive ReturnTypeKind where
  | text
  | rawHTML
deriving DecidableEq, Repr

/-- Truthy values of `PatternMeta.multiple` (`boolean | string`): the
string sentinel `'with comma'` is distinguished; every other truthy value
(`true` or a nonempty string) behaves uniformly and is modelled by
`asTrue`. `none` in the surrounding `Option` models absent/falsy. -/
inductive MultiValue where
  | asTrue
  | withComma
deriving DecidableEq, Repr

/-- `PatternMeta` (pattern-field.type.ts). -/
structure PatternMeta where
  multiple : Option MultiValue := none
  multiline : Bool := false
  alterPattern : Option (List JStr) := none
  isContainer : Bool := false
  isPage : Bool := false

/-- `PatternField` (pattern-field.type.ts). `patternType` is kept as a
string because the service checks it against `'xpath'` at runtime. -/
structure PatternField where
  key : JStr
  patternType : JStr
  returnType : ReturnTypeKind
  patterns : List JStr
  meta : Option PatternMeta := none
  pipes : Option CleanerStepRules := none

/-- `pattern.meta?.isContainer` (truthy check). -/
def PatternField.isContainerB (p : PatternField) : Bool :=
  match p.meta with
  | some m => m.isContainer
  | none => false

/-- `pattern.meta?.multiple` (truthy check, distinguishing `'with comma'`). -/
def PatternField.metaMultiple (p : PatternField) : Option MultiValue :=
  p.meta.bind (·.multiple)

/-- `pattern.meta?.multiline` (truthy check). -/
def PatternField.metaMultiline (p : PatternField) : Bool :=
  match p.meta with
  | some m => m.multiline
  | none => false

/-- `pattern.meta?.alterPattern`, defaulting to the empty list when the
meta object or the field is absent. -/
def PatternField.alterPatterns (p : PatternField) : List JStr :=
  match p.meta with
  | some m => m.alterPattern.getD []
  | none => []

/-- `pattern.pipes?.merge` (truthy check). -/
def PatternField.pipesMerge (p : PatternField) : Option MergeMode :=
  p.pipes.bind (·.merge)

/-- The query surface of a parsed document (`HtmlBuilder` instance) that
the extraction code uses, for an abstract node type `N`. `findXpath` /
`findXpathInContext` may raise (`SelectorSyntaxError` from the underlying
engine), modelled by `Except` whose error is the thrown message. `value`
and `htmlString` are the facade's total accessors. -/
structure DomOracle (N : Type) where
  findXpath : JStr → Except JStr (List N)
  findXpathInContext : JStr → N → Except JStr (List N)
  value : N → JStr
  htmlString : N → JStr

/-- The `'Only xpath pattern type is supported in scraper-html mode'`
error message. -/
def unsupportedPatternMsg : JStr :=
  "Only xpath pattern type is supported in scraper-html mode".data

/-- The `'Either html or url must be provided'` error message. -/
def missingInputMsg : JStr :=
  "Either html or url must be provided".data

/-- The `'xpath'` literal the service compares `patternType` against. -/
def xpathTypeLit : JStr := "xpath".data

variable {N : Type}

/-- `ScraperHtmlService.findXpathInContext` (scraper-html.service.ts
297-315): queries relative to a context node, catching any engine error
and returning the empty list. -/
def svcFindXpathInContext (dom : DomOracle N) (xpath : JStr) (context : N) :
    List N :=
  match dom.findXpathInContext xpath context with
  | .ok ns => ns
  | .error _ => []

/-- The candidate-trial loop of `ScraperHtmlService.findByPattern`
(scraper-html.service.ts 278-294): try each xpath in order; an engine
error is logged and skipped; the first candidate with at least one match
is returned; otherwise the empty list. -/
def tryPatterns (dom : DomOracle N) (context : Option N) : List JStr → List N
  | [] => []
  | xpath :: rest =>
    let attempt : Except JStr (List N) :=
      match context with
      | some ctx => .ok (svcFindXpathInContext dom xpath ctx)
      | none => dom.findXpath xpath
    match attempt with
    | .ok nodes => if nodes.length > 0 then nodes else tryPatterns dom context rest
    | .error _ => tryPatterns dom context rest

/-- `ScraperHtmlService.findByPattern` (scraper-html.service.ts 261-295):
fatal error for a non-`'xpath'` pattern type, then primary patterns
followed by `meta.alterPattern` are tried in order. -/
def findByPattern (dom : DomOracle N) (pattern : PatternField)
    (context : Option N) : Except JStr (List N) :=
  if pattern.patternType ≠ xpathTypeLit then
    .error unsupportedPatternMsg
  else
    .ok (tryPatterns dom context (pattern.patterns ++ pattern.alterPatterns))

/-- `ScraperHtmlService.getNodeValue` (scraper-html.service.ts 385-394). -/
def getNodeValue (dom : DomOracle N) (node : N) (returnType : ReturnTypeKind) :
    JStr :=
  match returnType with
  | .rawHTML => dom.htmlString node
  | .text => dom.value node

/-- The value a field contributes to a record: JS `null`, a string, or an
array of strings. -/
inductive FieldValue where
  | nullVal
  | strVal (s : JStr)
  | arrVal (vs : List JStr)
deriving DecidableEq, Repr

/-- `ScraperHtmlService.extractMultipleValues` (scraper-html.service.ts
342-383). -/
def extractMultipleValues (decodeHtml : JStr → JStr) (dom : DomOracle N)
    (nodes : List N) (pattern : PatternField) : FieldValue :=
  match pattern.pipesMerge with
  | some mergeType =>
    let rawValues := nodes.map (fun n => getNodeValue dom n pattern.returnType)
    let merged :=
      if mergeType = .withComma then joinSep ", ".data rawValues
      else joinSep " ".data rawValues
    .strVal (applyPipes decodeHtml merged pattern.pipes)
  | none =>
    let cleanedValues := nodes.map (fun n =>
      applyPipes decodeHtml (getNodeValue dom n pattern.returnType) pattern.pipes)
    if pattern.metaMultiple = some .withComma then
      .strVal (joinSep ", ".data cleanedValues)
    else if pattern.metaMultiline then
      .strVal (joinSep " ".data cleanedValues)
    else
      .arrVal cleanedValues

/-- `ScraperHtmlService.extractFieldValue` (scraper-html.service.ts
317-340). -/
def extractFieldValue (decodeHtml : JStr → JStr) (dom : DomOracle N)
    (pattern : PatternField) (context : Option N) : Except JStr FieldValue :=
  if pattern.patternType ≠ xpathTypeLit then
    .error unsupportedPatternMsg
  else
    match findByPattern dom pattern context with
    | .error e => .error e
    | .ok [] => .ok .nullVal
    | .ok (n :: rest) =>
      if (pattern.metaMultiple).isSome then
        .ok (extractMultipleValues decodeHtml dom (n :: rest) pattern)
      else
        .ok (.strVal (applyPipes decodeHtml
          (getNodeValue dom n pattern.returnType) pattern.pipes))

/-- A record: the insertion-ordered key/value pairs of the `item` object. -/
abbrev ExtractionRecord := List (JStr × FieldValue)

/-- The inner field loop shared by `extractFromContainers` (229-234) and
`extractWithoutContainer` (251-256): each field is resolved in order and
added to the item only when its value is not `null`. -/
def buildItem (decodeHtml : JStr → JStr) (dom : DomOracle N)
    (fieldPatterns : List PatternField) (context : Option N) :
    Except JStr ExtractionRecord :=
  match fieldPatterns with
  | [] => .ok []
  | p :: ps =>
    match extractFieldValue decodeHtml dom p context with
    | .error e => .error e
    | .ok v =>
      match buildItem decodeHtml dom ps context with
      | .error e => .error e
      | .ok rest =>
        match v with
        | .nullVal => .ok rest
        | v' => .ok ((p.key, v') :: rest)

/-- The container loop of `ScraperHtmlService.extractFromContainers`
(scraper-html.service.ts 226-239): one candidate record per container
node, kept only when it has at least one key. -/
def recordsLoop (decodeHtml : JStr → JStr) (dom : DomOracle N)
    (fieldPatterns : List PatternField) : List N →
    Except JStr (List ExtractionRecord)
  | [] => .ok []
  | c :: cs =>
    match buildItem decodeHtml dom fieldPatterns (some c) with
    | .error e => .error e
    | .ok item =>
      match recordsLoop decodeHtml dom fieldPatterns cs with
      | .error e => .error e
      | .ok rest => .ok (if item.length > 0 then item :: rest else rest)

/-- `ScraperHtmlService.extractFromContainers` (scraper-html.service.ts
217-242). -/
def extractFromContainers (decodeHtml : JStr → JStr) (dom : DomOracle N)
    (containerPattern : PatternField) (fieldPatterns : List PatternField) :
    Except JStr (List ExtractionRecord) :=
  match findByPattern dom containerPattern none with
  | .error e => .error e
  | .ok containers => recordsLoop decodeHtml dom fieldPatterns containers

/-- `ScraperHtmlService.extractWithoutContainer` (scraper-html.service.ts
244-259). -/
def extractWithoutContainer (decodeHtml : JStr → JStr) (dom : DomOracle N)
    (patterns : List PatternField) : Except JStr (List ExtractionRecord) :=
  match buildItem decodeHtml dom patterns none with
  | .error e => .error e
  | .ok item => .ok (if item.length > 0 then [item] else [])

/-- `ScraperHtmlService.extractData` (scraper-html.service.ts 197-215). -/
def extractData (decodeHtml : JStr → JStr) (dom : DomOracle N)
    (patterns : List PatternField) : Except JStr (List ExtractionRecord) :=
  let containerPattern := patterns.find? (fun p => p.isContainerB)
  let fieldPatterns := patterns.filter (fun p => !p.isContainerB)
  match containerPattern with
  | some cp => extractFromContainers decodeHtml dom cp fieldPatterns
  | none => extractWithoutContainer decodeHtml dom fieldPatterns

/-- Observable outcome of one `evaluateWebsite` call, tracking the parsed
document handle's lifecycle alongside the returned value or the escaped
exception: `handleCreated` records that `HtmlBuilder.loadHtml` ran (and so
may have installed the engine-global error-handler suppression), and
`destroyCount` how many times `dom.destroy()` ran. -/
structure EvalOutcome (R : Type) where
  result : Except JStr R
  handleCreated : Bool
  destroyCount : Nat
deriving Repr

/-- `ScraperHtmlService.evaluateWebsite` (scraper-html.service.ts 54-84),
document-handle lifecycle included. The network fetch is an external
collaborator: `html` models the document text after the optional fetch
(`none` models neither `html` nor `url` usable). `load` models
`HtmlBuilder.loadHtml`. The source calls `extractData` and then
`dom.destroy()` in straight-line code with no try/finally, so a thrown
extraction error propagates with `destroy` never executed. -/
def evaluateWebsite (decodeHtml : JStr → JStr) (load : JStr → DomOracle N)
    (html : Option JStr) (patterns : List PatternField) :
    EvalOutcome (List ExtractionRecord) :=
  match html with
  | none =>
    { result := .error missingInputMsg, handleCreated := false,
      destroyCount := 0 }
  | some text =>
    let dom := load text
    match extractData decodeHtml dom patterns with
    | .error e =>
      { result := .error e, handleCreated := true, destroyCount := 0 }
    | .ok results =>
      { result := .ok results, handleCreated := true, destroyCount := 1 }

/-- One entry of `validateXpath`'s `results` array. `errMsg` models the
`error` field (the thrown error's message). -/
structure XpathCheck where
  xpath : JStr
  valid : Bool
  matchCount : Option Nat := none
  sample : Option JStr := none
  errMsg : Option JStr := none
deriving DecidableEq, Repr

/-- The structured result of `validateXpath`. -/
structure ValidateResult where
  valid : Bool
  results : List XpathCheck
deriving DecidableEq, Repr

/-- The body of the `forEach` in `ScraperHtmlService.validateXpath`
(scraper-html.service.ts 120-137): one report per expression, the catch
branch turning a thrown engine error into a `valid: false` entry. -/
def checkXpath (dom : DomOracle N) (xpath : JStr) : XpathCheck :=
  match dom.findXpath xpath with
  | .ok nodes =>
    { xpath := xpath, valid := true, matchCount := some nodes.length,
      sample := nodes.head?.map dom.value, errMsg := none }
  | .error e =>
    { xpath := xpath, valid := false, matchCount := none, sample := none,
      errMsg := some e }

/-- `ScraperHtmlService.validateXpath` (scraper-html.service.ts 86-144):
the `forEach` accumulation is a fold pushing each report and clearing the
overall `valid` flag whenever a query throws. -/
def validateXpath (dom : DomOracle N) (xpathPatterns : Option (List JStr)) :
    ValidateResult :=
  let init : ValidateResult := { valid := true, results := [] }
  match xpathPatterns with
  | none => init
  | some pats =>
    if pats.length > 0 then
      pats.foldl (fun acc xpath =>
        let c := checkXpath dom xpath
        { valid := acc.valid && c.valid, results := acc.results ++ [c] }) init
    else init

/-! ## Case-conversion lemmas -/

theorem toNat_jsLowerChar_of_upper {c : Char}
    (h : 65 ≤ c.toNat ∧ c.toNat ≤ 90) :
    (jsLowerChar c).toNat = c.toNat + 32 := by
  have hlt : (c.toNat + 32).isValidChar := Or.inl (by omega)
  simp only [jsLowerChar, h, and_self, if_true]
  rw [Char.ofNat, dif_pos hlt]
  rfl

theorem jsUpperChar_jsLowerChar (c : Char) :
    jsUpperChar (jsLowerChar c) = jsUpperChar c := by
  by_cases h : 65 ≤ c.toNat ∧ c.toNat ≤ 90
  · have htn : (jsLowerChar c).toNat = c.toNat + 32 :=
      toNat_jsLowerChar_of_upper h
    have hlow : 97 ≤ (jsLowerChar c).toNat ∧ (jsLowerChar c).toNat ≤ 122 := by
      omega
    have hup : ¬(97 ≤ c.toNat ∧ c.toNat ≤ 122) := by omega
    have hrhs : jsUpperChar c = c := by simp [jsUpperChar, hup]
    have hlhs : jsUpperChar (jsLowerChar c) =
        Char.ofNat ((jsLowerChar c).toNat - 32) := by
      simp [jsUpperChar, hlow]
    rw [hrhs, hlhs, htn]
    have h32 : c.toNat + 32 - 32 = c.toNat := by omega
    rw [h32, Char.ofNat_toNat]
  · simp only [jsLowerChar, h, if_false]

theorem jsToUpper_jsToLower (s : JStr) :
    jsToUpper (jsToLower s) = jsToUpper s := by
  simp only [jsToUpper, jsToLower, List.map_map]
  exact List.map_congr_left (fun c _ => jsUpperChar_jsLowerChar c)

/-- The output of `jsUpperChar` is never a lowercase ASCII letter. -/
theorem jsUpperChar_not_lower (c : Char) :
    ¬(97 ≤ (jsUpperChar c).toNat ∧ (jsUpperChar c).toNat ≤ 122) := by
  by_cases h : 97 ≤ c.toNat ∧ c.toNat ≤ 122
  · have hlt : (c.toNat - 32).isValidChar := Or.inl (by omega)
    simp only [jsUpperChar, h, and_self, if_true]
    rw [Char.ofNat, dif_pos hlt]
    have : (Char.ofNatAux (c.toNat - 32) hlt).toNat = c.toNat - 32 := rfl
    rw [this]
    omega
  · simp only [jsUpperChar, if_neg h]
    exact h

/-! ## `NumberNormalizePipe` (src/pipes/NumberNormalizePipe.ts)

`exec` lowercases, turns commas into dots, parses a leading float, scales
by a `k`/`m`/`b` suffix, rounds, and returns a JavaScript *number* (not a
string). `parseFloat` is modelled over `ℚ` for inputs of the form
`[+-]?digits[.digits]?` (leading whitespace skipped, trailing garbage
ignored, exponent notation out of scope); `NaN` is `none`. -/

/-- Numeric value of a digit string (most significant first). -/
def digitsVal (ds : List Char) : Nat :=
  ds.foldl (fun a c => a * 10 + (c.toNat - 48)) 0

/-- A finite decimal as produced by `parseFloat`, kept in exact integer
form: the represented value is `sign * mantissa / 10 ^ scale`. -/
structure ParsedFloat where
  sign : Int
  mantissa : Nat
  scale : Nat
deriving DecidableEq, Repr

/-- The rational value a `ParsedFloat` denotes. -/
def ParsedFloat.toRat (p : ParsedFloat) : ℚ :=
  (p.sign * p.mantissa : ℚ) / ((10 : ℚ) ^ p.scale)

/-- Multiplication by a magnitude factor (`result *= 1000` etc.). -/
def ParsedFloat.scaleBy (p : ParsedFloat) (m : Nat) : ParsedFloat :=
  ⟨p.sign, p.mantissa * m, p.scale⟩

/-- JS `Math.round` on the represented value: `⌊x + 1/2⌋` (half toward
positive infinity), computed by integer floor division. -/
def ParsedFloat.jsRound (p : ParsedFloat) : Int :=
  (2 * p.sign * p.mantissa + 10 ^ p.scale) / ((2 * 10 ^ p.scale : ℕ) : Int)

/-- The integer rounding agrees with the mathematical `⌊x + 1/2⌋`. -/
theorem ParsedFloat.jsRound_eq_round (p : ParsedFloat) :
    p.jsRound = round p.toRat := by
  rw [round_eq, ParsedFloat.toRat]
  have hd : ((10 : ℚ) ^ p.scale) ≠ 0 := by positivity
  have h1 : (p.sign * p.mantissa : ℚ) / ((10 : ℚ) ^ p.scale) + 1 / 2 =
      ((2 * p.sign * p.mantissa + 10 ^ p.scale : ℤ) : ℚ) /
        ((2 * 10 ^ p.scale : ℕ) : ℚ) := by
    push_cast
    field_simp
    ring
  rw [h1, Rat.floor_intCast_div_natCast]
  rfl

/-- Model of JS `parseFloat` for inputs of the form
`[+-]?digits[.digits]?` (leading whitespace skipped, trailing garbage
ignored, exponent notation out of scope); `NaN` is `none`. -/
def parseFloatJs (s : JStr) : Option ParsedFloat :=
  let t := s.dropWhile isWs
  let signAndRest : Int × JStr :=
    match t with
    | '-' :: r => (-1, r)
    | '+' :: r => (1, r)
    | _ => (1, t)
  let intPart := signAndRest.2.takeWhile Char.isDigit
  let rest := signAndRest.2.dropWhile Char.isDigit
  let fracPart :=
    match rest with
    | '.' :: r => r.takeWhile Char.isDigit
    | _ => []
  if intPart = [] ∧ fracPart = [] then none
  else some ⟨signAndRest.1,
    digitsVal intPart * 10 ^ fracPart.length + digitsVal fracPart,
    fracPart.length⟩

/-- Does the string end with the given character
(`normalized.endsWith(c)`)? -/
def endsWithChar (s : JStr) (c : Char) : Bool :=
  match s.getLast? with
  | some d => d = c
  | none => false

/-- `NumberNormalizePipe.exec` (NumberNormalizePipe.ts 20-37): lowercase,
commas to dots, `parseFloat`, scale by a `k`/`m`/`b` suffix, `Math.round`;
`|| 0` maps `NaN` to `0`. The returned JavaScript number is represented
as a non-string `JsValue` carrying its `String(·)` image. -/
def numberNormalizeExec (value : JStr) : JsValue :=
  let normalized := jsReplaceAll ",".data ".".data (jsToLower value)
  let parsed := parseFloatJs normalized
  let scaled : Option ParsedFloat :=
    if endsWithChar normalized 'k' then parsed.map (·.scaleBy 1000)
    else if endsWithChar normalized 'm' then parsed.map (·.scaleBy 1000000)
    else if endsWithChar normalized 'b' then parsed.map (·.scaleBy 1000000000)
    else parsed
  let rounded : Int :=
    match scaled with
    | some p => p.jsRound
    | none => 0
  .nonStr (toString rounded).data

/-- The `num-normalize` entry of `PIPE_REGISTRY`, instantiated: its `exec`
never throws. -/
def numberNormalizePipe : PipeInstance :=
  ⟨some (fun v => .ok (numberNormalizeExec v))⟩

/-! ## Specification-side resolver and assembler

These definitions follow the wording of the specification (§4.2 and §4.3)
rather than the source text; the claim theorems relate the source-derived
functions to them. -/

/-- Specification-side selector resolution (§4.2): walk the ordered
candidate list; a query error is skipped; the first candidate with at
least one match wins; if all candidates yield zero matches or errors, the
result is the empty list. -/
def resolverSpec (query : JStr → Except JStr (List N)) : List JStr → List N
  | [] => []
  | c :: cs =>
    match query c with
    | .ok (n :: ns) => n :: ns
    | .ok [] => resolverSpec query cs
    | .error _ => resolverSpec query cs

/-- The query a candidate is attempted with inside `findByPattern`: the
whole-document query when there is no scope node, and the error-absorbing
context query otherwise. -/
def effectiveQuery (dom : DomOracle N) (context : Option N) (xpath : JStr) :
    Except JStr (List N) :=
  match context with
  | none => dom.findXpath xpath
  | some ctx => .ok (svcFindXpathInContext dom xpath ctx)

theorem tryPatterns_eq_resolverSpec (dom : DomOracle N) (context : Option N)
    (cands : List JStr) :
    tryPatterns dom context cands =
      resolverSpec (effectiveQuery dom context) cands := by
  induction cands with
  | nil => rfl
  | cons c cs ih =>
    simp only [tryPatterns, resolverSpec, effectiveQuery]
    cases context with
    | none =>
      cases h : dom.findXpath c with
      | ok ns =>
        cases ns with
        | nil => simpa using ih
        | cons n rest => simp
      | error e => simpa using ih
    | some ctx =>
      cases h : svcFindXpathInContext dom c ctx with
      | nil => simp [h, ih]
      | cons n rest => simp [h]

/-- The value a field contributes, as a total function (the `.ok`
projection of `extractFieldValue` when the pattern type is `'xpath'`). -/
def fieldValueSpec (decodeHtml : JStr → JStr) (dom : DomOracle N)
    (pattern : PatternField) (context : Option N) : FieldValue :=
  match resolverSpec (effectiveQuery dom context)
      (pattern.patterns ++ pattern.alterPatterns) with
  | [] => .nullVal
  | n :: rest =>
    if (pattern.metaMultiple).isSome then
      extractMultipleValues decodeHtml dom (n :: rest) pattern
    else
      .strVal (applyPipes decodeHtml
        (getNodeValue dom n pattern.returnType) pattern.pipes)

theorem findByPattern_eq_ok (dom : DomOracle N) (pattern : PatternField)
    (context : Option N) (hx : pattern.patternType = xpathTypeLit) :
    findByPattern dom pattern context =
      .ok (resolverSpec (effectiveQuery dom context)
        (pattern.patterns ++ pattern.alterPatterns)) := by
  simp [findByPattern, hx, tryPatterns_eq_resolverSpec]

theorem extractFieldValue_eq_ok (decodeHtml : JStr → JStr)
    (dom : DomOracle N) (pattern : PatternField) (context : Option N)
    (hx : pattern.patternType = xpathTypeLit) :
    extractFieldValue decodeHtml dom pattern context =
      .ok (fieldValueSpec decodeHtml dom pattern context) := by
  rw [extractFieldValue, if_neg (by simp [hx]),
    findByPattern_eq_ok dom pattern context hx, fieldValueSpec]
  cases resolverSpec (effectiveQuery dom context)
      (pattern.patterns ++ pattern.alterPatterns) with
  | nil => rfl
  | cons n rest => by_cases hm : (pattern.metaMultiple).isSome <;> simp [hm]

/-- Specification-side record for one scope: each field in order, keyed
entries only for non-null values (§4.3). -/
def recordSpec (decodeHtml : JStr → JStr) (dom : DomOracle N)
    (fieldPatterns : List PatternField) (context : Option N) :
    ExtractionRecord :=
  fieldPatterns.filterMap (fun p =>
    match fieldValueSpec decodeHtml dom p context with
    | .nullVal => none
    | v => some (p.key, v))

/-- Specification-side record assembly over container nodes (§4.3): one
candidate record per container node in order, kept exactly when at least
one field resolved. -/
def assembleSpec (decodeHtml : JStr → JStr) (dom : DomOracle N)
    (fieldPatterns : List PatternField) (containers : List N) :
    List ExtractionRecord :=
  (containers.map (fun c => recordSpec decodeHtml dom fieldPatterns (some c))).filter
    (fun r => !r.isEmpty)

theorem buildItem_eq_ok (decodeHtml : JStr → JStr) (dom : DomOracle N)
    (fieldPatterns : List PatternField) (context : Option N)
    (hall : ∀ p ∈ fieldPatterns, p.patternType = xpathTypeLit) :
    buildItem decodeHtml dom fieldPatterns context =
      .ok (recordSpec decodeHtml dom fieldPatterns context) := by
  induction fieldPatterns with
  | nil => rfl
  | cons p ps ih =>
    have hp : p.patternType = xpathTypeLit := hall p (by simp)
    have hps : ∀ q ∈ ps, q.patternType = xpathTypeLit :=
      fun q hq => hall q (by simp [hq])
    rw [buildItem, extractFieldValue_eq_ok decodeHtml dom p context hp, ih hps]
    simp only [recordSpec, List.filterMap_cons]
    cases fieldValueSpec decodeHtml dom p context with
    | nullVal => rfl
    | strVal s => rfl
    | arrVal vs => rfl

theorem recordsLoop_eq_ok (decodeHtml : JStr → JStr) (dom : DomOracle N)
    (fieldPatterns : List PatternField) (containers : List N)
    (hall : ∀ p ∈ fieldPatterns, p.patternType = xpathTypeLit) :
    recordsLoop decodeHtml dom fieldPatterns containers =
      .ok (assembleSpec decodeHtml dom fieldPatterns containers) := by
  induction containers with
  | nil => rfl
  | cons c cs ih =>
    rw [recordsLoop, buildItem_eq_ok decodeHtml dom fieldPatterns (some c) hall,
      ih]
    simp only [assembleSpec, List.map_cons, List.filter_cons]
    by_cases hne : (recordSpec decodeHtml dom fieldPatterns (some c)).isEmpty
    · have hlen : ¬(recordSpec decodeHtml dom fieldPatterns (some c)).length > 0 := by
        simp [List.isEmpty_iff] at hne
        simp [hne]
      simp [hne, hlen, assembleSpec]
    · have hlen : (recordSpec decodeHtml dom fieldPatterns (some c)).length > 0 := by
        simp [List.isEmpty_iff] at hne
        simpa [List.length_pos] using hne
      simp [hne, hlen, assembleSpec]

theorem assembleSpec_length_le (decodeHtml : JStr → JStr) (dom : DomOracle N)
    (fieldPatterns : List PatternField) (containers : List N) :
    (assembleSpec decodeHtml dom fieldPatterns containers).length ≤
      containers.length := by
  calc (assembleSpec decodeHtml dom fieldPatterns containers).length
      ≤ (containers.map
          (fun c => recordSpec decodeHtml dom fieldPatterns (some c))).length :=
        List.length_filter_le _ _
    _ = containers.length := List.length_map _ _

/-- Short-circuit: a candidate that yields at least one match is returned
at once; later candidates are not consulted. -/
theorem resolverSpec_cons_hit (q : JStr → Except JStr (List N)) (c : JStr)
    (cs : List JStr) (n : N) (ns : List N) (h : q c = .ok (n :: ns)) :
    resolverSpec q (c :: cs) = n :: ns := by
  simp [resolverSpec, h]

/-- Exhaustion: when every candidate yields zero matches or raises, the
resolver returns the empty list. -/
theorem resolverSpec_all_fail (q : JStr → Except JStr (List N))
    (cands : List JStr)
    (h : ∀ c ∈ cands, q c = .ok [] ∨ ∃ e, q c = .error e) :
    resolverSpec q cands = [] := by
  induction cands with
  | nil => rfl
  | cons c cs ih =>
    have hc := h c (by simp)
    have hcs : ∀ x ∈ cs, q x = .ok [] ∨ ∃ e, q x = .error e :=
      fun x hx => h x (by simp [hx])
    rcases hc with hok | ⟨e, herr⟩
    · simp [resolverSpec, hok, ih hcs]
    · simp [resolverSpec, herr, ih hcs]

/-- The `forEach` accumulation of `validateXpath`, characterized. -/
theorem validateXpath_foldl (dom : DomOracle N) (pats : List JStr)
    (acc : ValidateResult) :
    pats.foldl (fun acc xpath =>
        let c := checkXpath dom xpath
        { valid := acc.valid && c.valid,
          results := acc.results ++ [c] }) acc =
      { valid := acc.valid && (pats.map (checkXpath dom)).all (·.valid),
        results := acc.results ++ pats.map (checkXpath dom) } := by
  induction pats generalizing acc with
  | nil => simp
  | cons x xs ih =>
    simp only [List.foldl_cons, List.map_cons, List.all_cons]
    rw [ih]
    simp [Bool.and_assoc]

/-- `validateXpath` in closed form: one report per expression in order,
with the overall flag the conjunction of the per-expression flags. -/
theorem validateXpath_characterization (dom : DomOracle N)
    (pats : List JStr) :
    validateXpath dom (some pats) =
      { valid := (pats.map (checkXpath dom)).all (·.valid),
        results := pats.map (checkXpath dom) } := by
  simp only [validateXpath]
  by_cases h : pats.length > 0
  · rw [if_pos h, validateXpath_foldl]
    simp
  · have : pats = [] := by
      cases pats with
      | nil => rfl
      | cons a l => simp at h
    subst this
    simp

/-! ## Concrete fixtures

A small decidable query oracle over `Nat` node ids, and concrete field
descriptors, used to instantiate the claim theorems on explicit inputs. -/

/-- A concrete document oracle: a handful of fixed xpath behaviours,
including one that raises. Node values are their decimal ids, except node
`1` (`"Title"`) and node `7` (`"1.5K"`). -/
def demoDom : DomOracle Nat where
  findXpath := fun xp =>
    if xp = "//bad".data then .error "Invalid expression: //bad".data
    else if xp = "//h1/text()".data then .ok [1]
    else if xp = "//li".data then .ok [10, 20, 30]
    else if xp = "//num".data then .ok [7]
    else .ok []
  findXpathInContext := fun xp ctx =>
    if xp = ".//span".data then .ok [ctx + 1]
    else .ok []
  value := fun n =>
    if n = 1 then "Title".data
    else if n = 7 then "1.5K".data
    else (toString n).data
  htmlString := fun n => ("<x>" ++ toString n ++ "</x>").data

/-- Every error `demoDom.findXpath` raises carries a nonempty message. -/
theorem demoDom_error_nonempty :
    ∀ xp e, demoDom.findXpath xp = .error e → e ≠ [] := by
  intro xp e h
  simp only [demoDom] at h
  split_ifs at h
  all_goals injection h with h'
  all_goals subst h'
  all_goals decide

/-- A descriptor with a non-`'xpath'` pattern type (the service throws on
it at runtime). -/
def cssPattern : PatternField :=
  { key := "t".data, patternType := "css".data, returnType := .text,
    patterns := ["div".data] }

/-- A descriptor whose primary pattern misses and whose `alterPattern`
hits (spec Scenario A). -/
def demoPattern : PatternField :=
  { key := "title".data, patternType := "xpath".data, returnType := .text,
    patterns := ["//h2/text()".data],
    meta := some { alterPattern := some ["//h1/text()".data] } }

/-- A container descriptor over `//li`. -/
def containerPattern : PatternField :=
  { key := "item".data, patternType := "xpath".data, returnType := .text,
    patterns := ["//li".data], meta := some { isContainer := true } }

/-- A plain field resolved inside each container. -/
def spanPattern : PatternField :=
  { key := "s".data, patternType := "xpath".data, returnType := .text,
    patterns := [".//span".data] }

/-- A multi-valued descriptor with `merge: true`. -/
def mergePattern : PatternField :=
  { key := "m".data, patternType := "xpath".data, returnType := .text,
    patterns := ["//li".data],
    meta := some { multiple := some .asTrue },
    pipes := some { merge := some .asTrue } }

/-- A single-valued descriptor running the `num-normalize` custom pipe. -/
def numPattern : PatternField :=
  { key := "n".data, patternType := "xpath".data, returnType := .text,
    patterns := ["//num".data],
    pipes := some { custom := some [numberNormalizePipe] } }

/-- A custom pipe whose `exec` always throws. -/
def throwPipe : PipeInstance := ⟨some (fun _ => ExecResult.threw)⟩

/-- A pipes configuration whose only content is the throwing custom pipe. -/
def throwConfig : CleanerStepRules := { custom := some [throwPipe] }

/-- A pipes configuration with both case-conversion flags set. -/
def bothCaseConfig : CleanerStepRules :=
  { toLowerCase := true, toUpperCase := true }

/-! ## Claim theorems -/

/-- C1: the claim states that the document handle is disposed exactly once
per `evaluateWebsite` call regardless of the path taken. The code calls
`dom.destroy()` in straight-line code after `extractData` with no
try/finally, so this concrete call — a descriptor whose `patternType` is
`'css'`, making `findByPattern` throw its fatal unsupported-pattern-type
error — creates the handle (and with it any engine-global error-handler
suppression) but never runs `destroy`: the claim fails on the code. -/
theorem evaluateWebsite_destroy_skipped :
    evaluateWebsite (fun s => s) (fun _ => demoDom)
        (some "<html></html>".data) [cssPattern] =
      { result := .error unsupportedPatternMsg, handleCreated := true,
        destroyCount := 0 } := by
  rfl

/-- C2: selector resolution concatenates the primary patterns and
`meta.alterPattern` and resolves them per the §4.2 algorithm: candidates
in exact list order, a raising candidate skipped (the error absorbed, so
the overall result is an `.ok`), the first candidate with ≥1 match
returned immediately (later candidates never consulted), and the empty
list when every candidate yields zero matches or raises. -/
theorem findByPattern_first_match (dom : DomOracle N)
    (pattern : PatternField) (context : Option N)
    (hx : pattern.patternType = xpathTypeLit) :
    findByPattern dom pattern context =
      .ok (resolverSpec (effectiveQuery dom context)
        (pattern.patterns ++ pattern.alterPatterns)) ∧
    (∀ (q : JStr → Except JStr (List N)) c cs n ns, q c = .ok (n :: ns) →
      resolverSpec q (c :: cs) = n :: ns) ∧
    (∀ (q : JStr → Except JStr (List N)) cands,
      (∀ c ∈ cands, q c = .ok [] ∨ ∃ e, q c = .error e) →
      resolverSpec q cands = []) :=
  ⟨findByPattern_eq_ok dom pattern context hx,
    fun q c cs n ns h => resolverSpec_cons_hit q c cs n ns h,
    fun q cands h => resolverSpec_all_fail q cands h⟩

/-- Witness for C2 at a concrete input (spec Scenario A shape): the
primary pattern misses, the fallback hits node 1. -/
theorem findByPattern_first_match_witness :
    demoPattern.patternType = xpathTypeLit ∧
    findByPattern demoDom demoPattern none = .ok [1] := by
  refine ⟨rfl, ?_⟩
  rw [(findByPattern_first_match demoDom demoPattern none rfl).1]
  rfl

/-- C3: with a container descriptor present (and all pattern types
`'xpath'` so that no fatal error fires), `extractData` resolves the
container against the whole document and returns one candidate record per
container node in order — each built by resolving every non-container
field scoped to that node, kept exactly when at least one field produced a
non-null value — so at most as many records as container nodes. -/
theorem extractData_container_records (decodeHtml : JStr → JStr)
    (dom : DomOracle N) (patterns : List PatternField) (cp : PatternField)
    (hfind : patterns.find? (fun p => p.isContainerB) = some cp)
    (hall : ∀ p ∈ patterns, p.patternType = xpathTypeLit) :
    extractData decodeHtml dom patterns =
      .ok (assembleSpec decodeHtml dom
        (patterns.filter (fun p => !p.isContainerB))
        (resolverSpec (effectiveQuery dom none)
          (cp.patterns ++ cp.alterPatterns))) ∧
    (assembleSpec decodeHtml dom (patterns.filter (fun p => !p.isContainerB))
        (resolverSpec (effectiveQuery dom none)
          (cp.patterns ++ cp.alterPatterns))).length ≤
      (resolverSpec (effectiveQuery dom none)
        (cp.patterns ++ cp.alterPatterns)).length := by
  have hcp : cp.patternType = xpathTypeLit :=
    hall cp (List.mem_of_find?_eq_some hfind)
  have hfields : ∀ p ∈ patterns.filter (fun p => !p.isContainerB),
      p.patternType = xpathTypeLit :=
    fun p hp => hall p (List.mem_of_mem_filter hp)
  constructor
  · simp only [extractData, hfind]
    rw [extractFromContainers, findByPattern_eq_ok dom cp none hcp]
    exact recordsLoop_eq_ok decodeHtml dom _ _ hfields
  · exact assembleSpec_length_le decodeHtml dom _ _

/-- Witness for C3: three `//li` container nodes, a `.//span` field
resolving inside each; three records result. -/
theorem extractData_container_records_witness :
    [containerPattern, spanPattern].find? (fun p => p.isContainerB) =
      some containerPattern ∧
    extractData (fun s => s) demoDom [containerPattern, spanPattern] =
      .ok [[("s".data, .strVal "11".data)], [("s".data, .strVal "21".data)],
        [("s".data, .strVal "31".data)]] := by
  refine ⟨rfl, ?_⟩
  rw [(extractData_container_records (fun s => s) demoDom
    [containerPattern, spanPattern] containerPattern rfl (by decide)).1]
  rfl

/-- C4: multi-value semantics. With `merge` set, the raw values of all
matched nodes are joined first (`', '` for the comma merge, a single
space otherwise) and the full pipeline runs exactly once on the merged
string; with `merge` unset, the pipeline runs per raw value and the
results are joined with `', '` when `multiple` is the `'with comma'`
sentinel, joined with a single space when `multiline` is set, and
returned as an array otherwise. -/
theorem extractMultipleValues_merge_semantics (decodeHtml : JStr → JStr)
    (dom : DomOracle N) (nodes : List N) (pattern : PatternField) :
    (∀ m, pattern.pipesMerge = some m →
      extractMultipleValues decodeHtml dom nodes pattern =
        .strVal (applyPipes decodeHtml
          (joinSep (if m = MergeMode.withComma then ", ".data else " ".data)
            (nodes.map (fun n => getNodeValue dom n pattern.returnType)))
          pattern.pipes)) ∧
    (pattern.pipesMerge = none →
      (pattern.metaMultiple = some .withComma →
        extractMultipleValues decodeHtml dom nodes pattern =
          .strVal (joinSep ", ".data (nodes.map (fun n =>
            applyPipes decodeHtml (getNodeValue dom n pattern.returnType)
              pattern.pipes)))) ∧
      (pattern.metaMultiple ≠ some .withComma → pattern.metaMultiline = true →
        extractMultipleValues decodeHtml dom nodes pattern =
          .strVal (joinSep " ".data (nodes.map (fun n =>
            applyPipes decodeHtml (getNodeValue dom n pattern.returnType)
              pattern.pipes)))) ∧
      (pattern.metaMultiple ≠ some .withComma → pattern.metaMultiline = false →
        extractMultipleValues decodeHtml dom nodes pattern =
          .arrVal (nodes.map (fun n =>
            applyPipes decodeHtml (getNodeValue dom n pattern.returnType)
              pattern.pipes)))) := by
  constructor
  · intro m hm
    cases m <;> simp [extractMultipleValues, hm]
  · intro hm
    refine ⟨fun hmv => ?_, fun hmv hml => ?_, fun hmv hml => ?_⟩
    · simp [extractMultipleValues, hm, hmv]
    · simp [extractMultipleValues, hm, hmv, hml]
    · simp [extractMultipleValues, hm, hmv, hml]

/-- Witness for C4: `merge: true` over the three `//li` nodes joins the
raw values with spaces before the pipeline runs once. -/
theorem extractMultipleValues_merge_semantics_witness :
    mergePattern.pipesMerge = some .asTrue ∧
    extractMultipleValues (fun s => s) demoDom [10, 20, 30] mergePattern =
      .strVal "10 20 30".data := by
  refine ⟨rfl, ?_⟩
  rw [(extractMultipleValues_merge_semantics (fun s => s) demoDom
    [10, 20, 30] mergePattern).1 .asTrue rfl]
  rfl

/-- C5 counterexample: the claim says the final whitespace-collapse-and-
trim step is always applied, so the returned value never has runs or
leading/trailing whitespace. With no pipes configuration (line 401's
`if (!pipes || !value) return value;`), `applyPipes` returns the value
untouched: on `" a  b "` the output keeps its leading blank, trailing
blank, and double space. -/
theorem applyPipes_no_config_unnormalized :
    applyPipes (fun s => s) " a  b ".data none = " a  b ".data ∧
    wsNormalizedB (applyPipes (fun s => s) " a  b ".data none) = false := by
  exact ⟨rfl, by decide⟩

/-- C5 (amended): whenever a pipes configuration object is present, the
final whitespace collapse and trim runs regardless of which flags are set,
so the output has no whitespace runs and no leading/trailing whitespace;
when the configuration is absent the value passes through unchanged. -/
theorem applyPipes_normalizes_when_configured (decodeHtml : JStr → JStr)
    (value : JStr) (p : CleanerStepRules) :
    wsNormalizedB (applyPipes decodeHtml value (some p)) = true ∧
    applyPipes decodeHtml value none = value := by
  constructor
  · by_cases hv : value = []
    · subst hv
      rfl
    · simp only [applyPipes, hv, if_false]
      exact wsNormalizedB_wsNormalize _
  · rfl

/-- C6 counterexample: the claim says text-value collapses whitespace runs
identically across engines and node kinds. On the same content `"a  b"`
the jsdom engine returns the trimmed-but-uncollapsed `"a  b"` (its branch
is `textContent?.trim() || ''`) while the libxmljs element/text branch
returns `"a b"` — the two engines disagree and the jsdom output violates
the collapse contract. -/
theorem getValue_contract_not_uniform :
    getValueJsdom (some (.element (some "a  b".data))) = "a  b".data ∧
    wsNormalizedB (getValueJsdom (some (.element (some "a  b".data)))) =
      false ∧
    getValueJsdom (some (.element (some "a  b".data))) ≠
      getValueLibxml (some (.textNode "a  b".data)) := by
  refine ⟨by decide, by decide, by decide⟩

/-- C6 (amended): the collapse-and-trim contract holds for the libxmljs
engine's element/text branch (and its `toString` fallback), whose output
is fully whitespace-normalized; the jsdom engine only trims
`textContent`, and a libxmljs attribute value is only trimmed — the
whitespace behaviour is not identical across engines and node kinds. -/
theorem getValue_whitespace_by_engine (t v s tc : JStr) :
    getValueLibxml (some (.textNode t)) = normalizeWhitespace t ∧
    wsNormalizedB (getValueLibxml (some (.textNode t))) = true ∧
    getValueLibxml (some (.otherNode s)) = normalizeWhitespace s ∧
    getValueLibxml (some (.attribute v)) = jsTrim v ∧
    getValueJsdom (some (.element (some tc))) = jsTrim tc := by
  refine ⟨rfl, ?_, rfl, rfl, rfl⟩
  simpa [getValueLibxml] using wsNormalizedB_normalizeWhitespace t

/-- C7: `validateXpath` is a total function (the model returns a plain
structure, mirroring that every per-expression query is wrapped in
try/catch): each expression is reported in order — `valid: true` with its
match count and the first match's text as sample when the query succeeds,
`valid: false` with the thrown (nonempty, per the engine hypothesis)
message when it raises — and the overall flag is false exactly when some
expression's report is invalid. -/
theorem validateXpath_reports (dom : DomOracle N) (pats : List JStr)
    (hmsg : ∀ xp e, dom.findXpath xp = .error e → e ≠ []) :
    (validateXpath dom (some pats)).results = pats.map (checkXpath dom) ∧
    (∀ xp ns, dom.findXpath xp = .ok ns →
      checkXpath dom xp =
        { xpath := xp, valid := true, matchCount := some ns.length,
          sample := ns.head?.map dom.value, errMsg := none }) ∧
    (∀ xp e, dom.findXpath xp = .error e →
      checkXpath dom xp =
        { xpath := xp, valid := false, matchCount := none, sample := none,
          errMsg := some e } ∧ e ≠ []) ∧
    ((validateXpath dom (some pats)).valid = false ↔
      ∃ c ∈ (validateXpath dom (some pats)).results, c.valid = false) := by
  rw [validateXpath_characterization]
  refine ⟨rfl, ?_, ?_, ?_⟩
  · intro xp ns h
    simp [checkXpath, h]
  · intro xp e h
    exact ⟨by simp [checkXpath, h], hmsg xp e h⟩
  · simp only []
    constructor
    · intro hall
      by_contra hno
      push_neg at hno
      have : (pats.map (checkXpath dom)).all (·.valid) = true := by
        rw [List.all_eq_true]
        intro c hc
        have := hno c hc
        simpa [Bool.not_eq_false] using this
      rw [this] at hall
      cases hall
    · intro ⟨c, hc, hcv⟩
      rcases hb : (pats.map (checkXpath dom)).all (·.valid) with _ | _
      · rfl
      · rw [List.all_eq_true] at hb
        have := hb c hc
        rw [hcv] at this
        cases this

/-- Witness for C7: `demoDom` raises only nonempty messages; the reports
on a succeeding and a raising expression are as characterized, and the
overall flag is false. -/
theorem validateXpath_reports_witness :
    (∀ xp e, demoDom.findXpath xp = .error e → e ≠ []) ∧
    (validateXpath demoDom (some ["//h1/text()".data, "//bad".data])).results =
      ["//h1/text()".data, "//bad".data].map (checkXpath demoDom) ∧
    (validateXpath demoDom (some ["//h1/text()".data, "//bad".data])).valid =
      false := by
  refine ⟨demoDom_error_nonempty, ?_, ?_⟩
  · exact (validateXpath_reports demoDom _ demoDom_error_nonempty).1
  · rfl

/-- C8: a custom transform that throws during execution is caught: the
pipeline continues with the pre-transform value, the remaining transforms
still run, and the overall `applyPipes` result equals the run with the
throwing transform removed from the chain — the extraction is never
aborted. -/
theorem applyPipes_custom_throw (decodeHtml : JStr → JStr) (value : JStr)
    (p : CleanerStepRules) (f : JStr → ExecResult) (ps : List PipeInstance)
    (hc : p.custom = some (⟨some f⟩ :: ps))
    (hthrow : f (preCustomPipes decodeHtml value p) = .threw) :
    applyPipes decodeHtml value (some p) =
      applyPipes decodeHtml value (some { p with custom := some ps }) ∧
    runCustomChain (preCustomPipes decodeHtml value p) (⟨some f⟩ :: ps) =
      runCustomChain (preCustomPipes decodeHtml value p) ps := by
  have hrun : runCustomChain (preCustomPipes decodeHtml value p)
      (⟨some f⟩ :: ps) =
      runCustomChain (preCustomPipes decodeHtml value p) ps := by
    simp [runCustomChain, hthrow]
  refine ⟨?_, hrun⟩
  by_cases hv : value = []
  · simp [applyPipes, hv]
  · have hpre : preCustomPipes decodeHtml value { p with custom := some ps } =
        preCustomPipes decodeHtml value p := rfl
    simp only [applyPipes, hv, if_false, hc, hpre]
    cases ps with
    | nil =>
      simp only [List.length_cons, List.length_nil]
      rw [if_pos (by omega)]
      rw [hrun]
      simp [runCustomChain]
    | cons q qs =>
      simp only [List.length_cons]
      rw [if_pos (by omega), if_pos (by omega)]
      rw [hrun]

/-- Witness for C8: the always-throwing pipe leaves `applyPipes` equal to
the run with the empty custom chain; on `" x "` both runs normalize to
`"x"`. -/
theorem applyPipes_custom_throw_witness :
    throwConfig.custom = some (⟨some (fun _ => ExecResult.threw)⟩ :: []) ∧
    applyPipes (fun s => s) " x ".data (some throwConfig) =
      applyPipes (fun s => s) " x ".data
        (some { throwConfig with custom := some [] }) ∧
    applyPipes (fun s => s) " x ".data (some throwConfig) = "x".data := by
  refine ⟨rfl, ?_, by rfl⟩
  exact (applyPipes_custom_throw (fun s => s) " x ".data throwConfig
    (fun _ => ExecResult.threw) [] rfl rfl).1

/-- C9: for a single-valued (`multiple` falsy) field with pattern type
`'xpath'`, the field's record value is always JS `null` or a string; the
custom-pipe loop coerces every non-string transform output back to a
string with `String(·)` before continuing, and in particular the
magnitude-suffix normalizer (`num-normalize`) always returns a non-string
number whose coerced image the chain continues with. -/
theorem singleValue_string_coercion (decodeHtml : JStr → JStr)
    (dom : DomOracle N) (pattern : PatternField) (context : Option N)
    (hx : pattern.patternType = xpathTypeLit)
    (hm : pattern.metaMultiple = none) :
    (∀ v, extractFieldValue decodeHtml dom pattern context = .ok v →
      v = .nullVal ∨ ∃ s, v = .strVal s) ∧
    (∀ v ps, runCustomChain v (numberNormalizePipe :: ps) =
      runCustomChain (jsStringOf (numberNormalizeExec v)) ps) ∧
    (∀ v, ∃ r, numberNormalizeExec v = .nonStr r) := by
  refine ⟨?_, fun v ps => by simp [runCustomChain, numberNormalizePipe],
    fun v => ⟨_, rfl⟩⟩
  intro v hv
  rw [extractFieldValue_eq_ok decodeHtml dom pattern context hx] at hv
  injection hv with hv
  subst hv
  rw [fieldValueSpec]
  cases resolverSpec (effectiveQuery dom context)
      (pattern.patterns ++ pattern.alterPatterns) with
  | nil => exact Or.inl rfl
  | cons n rest =>
    rw [hm]
    exact Or.inr ⟨_, rfl⟩

/-- Witness for C9: the `num-normalize` pipe turns `"1.5K"` into the
number `1500`; the single-valued field built on it yields the *string*
`"1500"`. -/
theorem singleValue_string_coercion_witness :
    numPattern.patternType = xpathTypeLit ∧
    numPattern.metaMultiple = none ∧
    numberNormalizeExec "1.5K".data = .nonStr "1500".data ∧
    extractFieldValue (fun s => s) demoDom numPattern none =
      .ok (.strVal "1500".data) ∧
    (FieldValue.strVal "1500".data = .nullVal ∨
      ∃ s, FieldValue.strVal "1500".data = .strVal s) := by
  have hfv : extractFieldValue (fun s => s) demoDom numPattern none =
      .ok (.strVal "1500".data) := by
    rw [extractFieldValue_eq_ok (fun s => s) demoDom numPattern none rfl]
    exact congrArg Except.ok (by decide)
  refine ⟨rfl, rfl, by decide, hfv, ?_⟩
  exact (singleValue_string_coercion (fun s => s) demoDom numPattern none
    rfl rfl).1 _ hfv

/-- C10: with both case-conversion flags set, neither is rejected;
lowercase runs first and uppercase second, so the run equals the run with
only the uppercase flag, and the uppercase conversion's output never
contains a lowercase ASCII letter. -/
theorem applyPipes_both_case_flags (decodeHtml : JStr → JStr) (value : JStr)
    (p : CleanerStepRules) (hl : p.toLowerCase = true)
    (hu : p.toUpperCase = true) :
    applyPipes decodeHtml value (some p) =
      applyPipes decodeHtml value (some { p with toLowerCase := false }) ∧
    (∀ s, jsToUpper (jsToLower s) = jsToUpper s) ∧
    (∀ s c, c ∈ jsToUpper s → ¬(97 ≤ c.toNat ∧ c.toNat ≤ 122)) := by
  refine ⟨?_, jsToUpper_jsToLower, ?_⟩
  · have hpre : preCustomPipes decodeHtml value p =
        preCustomPipes decodeHtml value { p with toLowerCase := false } := by
      simp [preCustomPipes, hl, hu, jsToUpper_jsToLower]
    simp [applyPipes, hpre]
  · intro s c hc
    rw [jsToUpper, List.mem_map] at hc
    obtain ⟨d, _, hd⟩ := hc
    rw [← hd]
    exact jsUpperChar_not_lower d

/-- Witness for C10: both flags on `"Ab"` yield `"AB"`, equal to the
uppercase-only run. -/
theorem applyPipes_both_case_flags_witness :
    bothCaseConfig.toLowerCase = true ∧
    bothCaseConfig.toUpperCase = true ∧
    applyPipes (fun s => s) "Ab".data (some bothCaseConfig) =
      applyPipes (fun s => s) "Ab".data
        (some { bothCaseConfig with toLowerCase := false }) ∧
    applyPipes (fun s => s) "Ab".data (some bothCaseConfig) = "AB".data := by
  refine ⟨rfl, rfl, ?_, by decide⟩
  exact (applyPipes_both_case_flags (fun s => s) "Ab".data bothCaseConfig
    rfl rfl).1

end ScraperHtml
